import Mathlib

/-!
# Verification of the client/server load harness (`project.go`)

A shallow embedding of the Go program: the `Stats` aggregate, the outcome
generator `generateStatus`, the `POST /` pipeline (`rateLimitMiddleware`
around `handleRequest`), the `worker` loop with its batch lock `workerMu`,
the `client` supervisor and the `checkServer` polling loop.

Conventions of the embedding.

* HTTP status codes and the Go `int` counters are natural numbers (a counter
  is incremented once per request, so the 64-bit range is never approached).
* A Go `map` is an association list with at most one entry per key; reading a
  missing key yields the zero value, as in Go.
* Randomness (`rand.Intn`), the decision of `limiter.Allow()`, and the control
  path taken by one loop iteration of a worker are inputs of the definitions.
* Every access to `stats` is made under `statsMu`, so one handler call and one
  worker update are atomic steps on the aggregate.
-/

namespace Project

/-! ## Data model -/

/-- Go `map[K]V` as an association list. -/
abbrev GoMap (κ ν : Type) := List (κ × ν)

/-- Read `m[k]`: the stored value, or the zero value `z` when `k` is absent. -/
def GoMap.get {κ ν : Type} [DecidableEq κ] (z : ν) : GoMap κ ν → κ → ν
  | [], _ => z
  | (k', v') :: rest, k => if k' = k then v' else GoMap.get z rest k

/-- Assignment `m[k] = v`: overwrite the entry of `k`, or add one. -/
def GoMap.set {κ ν : Type} [DecidableEq κ] : GoMap κ ν → κ → ν → GoMap κ ν
  | [], k, v => [(k, v)]
  | (k', v') :: rest, k, v =>
      if k' = k then (k, v) :: rest else (k', v') :: GoMap.set rest k v

/-- The struct `Summary`. -/
structure Summary where
  Positive : Nat
  Negative : Nat
  deriving DecidableEq, Repr

/-- The struct `Stats`. -/
structure Stats where
  Server : Summary
  Clients : GoMap String Summary
  deriving DecidableEq, Repr

/-- The initial value of the global `stats`: `Stats{Clients: make(map[string]Summary)}`. -/
def stats : Stats := ⟨⟨0, 0⟩, []⟩

/-- The expression `stats.Clients[name]` (zero `Summary` when absent). -/
def Stats.client (s : Stats) (name : String) : Summary :=
  GoMap.get ⟨0, 0⟩ s.Clients name

def StatusOK : Nat := 200
def StatusAccepted : Nat := 202
def StatusBadRequest : Nat := 400
def StatusForbidden : Nat := 403
def StatusMethodNotAllowed : Nat := 405
def StatusTooManyRequests : Nat := 429
def StatusInternalServerError : Nat := 500

/-! ## Server side -/

/-- The function `generateStatus`; `d1` is the value of `rand.Intn(10)` and `d2` the value
of the one `rand.Intn(2)` call executed on the path taken. -/
def generateStatus (d1 d2 : Nat) : Nat :=
  if d1 < 7 then
    if d2 = 0 then StatusOK else StatusAccepted
  else
    if d2 = 0 then StatusBadRequest else StatusInternalServerError

/-- The parts of an `*http.Request` the handler reads: `r.Method` and
`r.Header.Get("X-Client-Name")` (the empty string when the header is absent). -/
structure Request where
  Method : String
  clientName : String
  deriving DecidableEq, Repr

/-- The function `handleRequest`: returns the status written to the response and the
aggregate after the call. -/
def handleRequest (r : Request) (d1 d2 : Nat) (st : Stats) : Nat × Stats :=
  if r.Method ≠ "POST" then
    (StatusMethodNotAllowed, st)
  else if r.clientName ≠ "client1" ∧ r.clientName ≠ "client2" then
    (StatusForbidden, st)
  else
    let status := generateStatus d1 d2
    if status = StatusOK ∨ status = StatusAccepted then
      (status, { st with Server := { st.Server with Positive := st.Server.Positive + 1 } })
    else
      (status, { st with Server := { st.Server with Negative := st.Server.Negative + 1 } })

/-- The handler returned by `rateLimitMiddleware(handleRequest)`; `allow` is the result of
`limiter.Allow()` for this request. -/
def rateLimitMiddleware (allow : Bool) (r : Request) (d1 d2 : Nat) (st : Stats) : Nat × Stats :=
  if !allow then
    (StatusTooManyRequests, st)
  else
    handleRequest r d1 d2 st

/-- One request as it reaches `POST /`, with the inputs that decide its fate. -/
structure Arrival where
  allow : Bool
  req : Request
  d1 : Nat
  d2 : Nat
  deriving DecidableEq, Repr

/-- The aggregate after serving the arrivals one after the other. -/
def serveAll (st : Stats) (as : List Arrival) : Stats :=
  as.foldl (fun s a => (rateLimitMiddleware a.allow a.req a.d1 a.d2 s).2) st

/-- An arrival passed the rate-limit check and the identity check. -/
def Arrival.passed (a : Arrival) : Bool :=
  a.allow && (a.req.clientName == "client1" || a.req.clientName == "client2")

/-! ## The ingress limiter -/

/-- Modelled from the spec: the token bucket of package `golang.org/x/time/rate`, which is
not part of the repository. It holds a reservoir capped at `burst` tokens, refilled
continuously at `limit` tokens per second and initially full. Time is counted in
nanoseconds and the reservoir in units of `10⁻⁹` token, so a refill at `limit` tokens per
second is exactly `limit` units per nanosecond. -/
structure Limiter where
  limit : Nat
  burst : Nat
  tokens : Nat
  last : Nat
  deriving DecidableEq, Repr

/-- Number of reservoir units in one token (and of nanoseconds in one second). -/
def Limiter.unit : Nat := 1000000000

/-- Modelled from the spec: `rate.NewLimiter(rate.Limit(r), b)`, a full bucket. -/
def NewLimiter (r b : Nat) : Limiter :=
  { limit := r, burst := b, tokens := b * Limiter.unit, last := 0 }

/-- Modelled from the spec: `Allow()` at time `now`, non-blocking: refill for the time
elapsed since the previous call, capped at the burst capacity; when at least one token is
available consume it and grant, otherwise refuse. -/
def Limiter.Allow (lim : Limiter) (now : Nat) : Bool × Limiter :=
  let filled := min (lim.burst * Limiter.unit) (lim.tokens + lim.limit * (now - lim.last))
  if Limiter.unit ≤ filled then
    (true, { lim with tokens := filled - Limiter.unit, last := now })
  else
    (false, { lim with tokens := filled, last := now })

/-- The server: the limiter created by `rateLimitMiddleware` and the aggregate. -/
structure Server where
  limiter : Limiter
  st : Stats
  deriving DecidableEq, Repr

/-- The server at start-up: `rate.NewLimiter(rate.Limit(5), 5)` and the empty aggregate. -/
def Server.init : Server := ⟨NewLimiter 5 5, stats⟩

/-- One request arriving at time `now`: the limiter decides, then the pipeline runs.
Returns the limiter's decision, the response status and the server afterwards. -/
def Server.serve (sv : Server) (now : Nat) (r : Request) (d1 d2 : Nat) :
    (Bool × Nat) × Server :=
  let (ok, lim) := sv.limiter.Allow now
  let (status, st) := rateLimitMiddleware ok r d1 d2 sv.st
  ((ok, status), ⟨lim, st⟩)

/-- A request with its arrival time and the random draws made while serving it. -/
structure TimedRequest where
  time : Nat
  req : Request
  d1 : Nat
  d2 : Nat
  deriving DecidableEq, Repr

/-- Serve the requests in order of arrival; the list of (limiter decision, status). -/
def Server.serveTimed : Server → List TimedRequest → List (Bool × Nat)
  | _, [] => []
  | sv, q :: qs =>
      let (out, sv1) := sv.serve q.time q.req q.d1 q.d2
      out :: Server.serveTimed sv1 qs

/-! ## Client side: one worker -/

/-- The control path taken by one iteration of the loop in `worker`. -/
inductive IterOutcome where
  /-- The call `limiter.Wait` returned an error. -/
  | limiterErr
  /-- The call `http.NewRequest` returned an error. -/
  | requestErr
  /-- The call `http.DefaultClient.Do` returned an error. -/
  | transportErr
  /-- A response with this `resp.StatusCode` was received. -/
  | response (StatusCode : Nat)
  deriving DecidableEq, Repr

/-- A response was received on this path. -/
def IterOutcome.received : IterOutcome → Bool
  | .response _ => true
  | _ => false

/-- A response was received and its status is one of 200, 202, 400, 500. -/
def IterOutcome.counted : IterOutcome → Bool
  | .response c => c == 200 || c == 202 || c == 400 || c == 500
  | _ => false

/-- A response was received and its status is 200 or 202. -/
def IterOutcome.success : IterOutcome → Bool
  | .response c => c == 200 || c == 202
  | _ => false

/-- A response was received and its status is 400 or 500. -/
def IterOutcome.failure : IterOutcome → Bool
  | .response c => c == 400 || c == 500
  | _ => false

/-- The request was handed to `http.DefaultClient.Do` on this path. -/
def IterOutcome.sent : IterOutcome → Bool
  | .transportErr => true
  | .response _ => true
  | _ => false

/-- What a worker does to `workerMu` and to the network, tagged with the loop index. -/
inductive Event where
  /-- The call `workerMu.Lock()` of iteration `i`. -/
  | lock (i : Nat)
  /-- The call `http.DefaultClient.Do(req)` of iteration `i`. -/
  | send (i : Nat)
  /-- The call `workerMu.Unlock()` of iteration `i`. -/
  | unlock (i : Nat)
  deriving DecidableEq, Repr

def Event.isLock : Event → Bool
  | .lock _ => true
  | _ => false

def Event.isUnlock : Event → Bool
  | .unlock _ => true
  | _ => false

/-- What a worker reads and writes: the map `clientStats` of its client, the global `stats`,
and (for the analysis) the events it has performed so far, oldest first. -/
structure WorkerState where
  clientStats : GoMap Nat Nat
  stats : Stats
  trace : List Event
  deriving DecidableEq, Repr

def WorkerState.emit (s : WorkerState) (e : Event) : WorkerState :=
  { s with trace := s.trace ++ [e] }

/-- The block of `worker` guarded by `statsMu` (the statistics update). -/
def recordResponse (name : String) (StatusCode : Nat) (s : WorkerState) : WorkerState :=
  let clientStats := s.clientStats.set StatusCode (GoMap.get 0 s.clientStats StatusCode + 1)
  let clientSummary := s.stats.client name
  let clientSummary :=
    if StatusCode = StatusOK ∨ StatusCode = StatusAccepted then
      { clientSummary with Positive := clientSummary.Positive + 1 }
    else if StatusCode = StatusBadRequest ∨ StatusCode = StatusInternalServerError then
      { clientSummary with Negative := clientSummary.Negative + 1 }
    else clientSummary
  { s with
    clientStats := clientStats
    stats := { s.stats with Clients := s.stats.Clients.set name clientSummary } }

/-- The body of the loop of `worker` for loop index `i`, on control path `o`. -/
def workerIter (name : String) (i : Nat) (o : IterOutcome) (s : WorkerState) : WorkerState :=
  let s := if i % 5 = 0 then s.emit (.lock i) else s
  match o with
  | .limiterErr =>
      if i % 5 = 4 then s.emit (.unlock i) else s
  | .requestErr =>
      if i % 5 = 4 then s.emit (.unlock i) else s
  | .transportErr =>
      let s := s.emit (.send i)
      if i % 5 = 4 then s.emit (.unlock i) else s
  | .response StatusCode =>
      let s := s.emit (.send i)
      let s := recordResponse name StatusCode s
      if i % 5 = 4 then s.emit (.unlock i) else s

/-- The first `n` iterations of the loop of `worker`; `o i` is the path of iteration `i`. -/
def workerLoop (name : String) (o : Nat → IterOutcome) : Nat → WorkerState → WorkerState
  | 0, s => s
  | n + 1, s => workerIter name n (o n) (workerLoop name o n s)

/-- The function `worker`: `for i := 0; i < 50; i++`. -/
def worker (name : String) (o : Nat → IterOutcome) (s : WorkerState) : WorkerState :=
  workerLoop name o 50 s

/-- Replay a trace against a mutex: `some held` is the state of the lock afterwards;
`none` when the trace locks a mutex it already holds, unlocks one it does not hold, or
sends a request without holding it. -/
def mutexStep : Option Bool → Event → Option Bool
  | none, _ => none
  | some held, .lock _ => if held then none else some true
  | some held, .send _ => if held then some held else none
  | some held, .unlock _ => if held then some false else none

def mutexReplay (held : Bool) (tr : List Event) : Option Bool :=
  tr.foldl mutexStep (some held)

/-- A sequence of worker iterations of one client, each with its loop index and path. -/
def runIters (name : String) (its : List (Nat × IterOutcome)) (s : WorkerState) : WorkerState :=
  its.foldl (fun s it => workerIter name it.1 it.2 s) s

/-! ## Client side: the supervisor and its two workers -/

/-- The loop in `client` that prints the tally: the value of `total` after it. -/
def total (clientStats : GoMap Nat Nat) : Nat :=
  clientStats.foldl (fun total kv => total + kv.2) 0

/-- The two workers started by `client` for one name: their loop indices and the state
they share (`clientStats` is created empty by `client`). -/
structure ClientRun where
  iA : Nat
  iB : Nat
  ws : WorkerState
  deriving DecidableEq, Repr

/-- One scheduling step: the chosen worker runs its next iteration, if it has one left.
Any order of the iterations is a schedule; the batch lock only rules some of them out. -/
def ClientRun.step (name : String) (oA oB : Nat → IterOutcome) (r : ClientRun)
    (pickA : Bool) : ClientRun :=
  if pickA then
    if r.iA < 50 then { r with iA := r.iA + 1, ws := workerIter name r.iA (oA r.iA) r.ws }
    else r
  else
    if r.iB < 50 then { r with iB := r.iB + 1, ws := workerIter name r.iB (oB r.iB) r.ws }
    else r

/-- The two workers of `client name`, interleaved as `sched` says, from aggregate `st`. -/
def clientRun (name : String) (oA oB : Nat → IterOutcome) (sched : List Bool) (st : Stats) :
    ClientRun :=
  sched.foldl (ClientRun.step name oA oB) ⟨0, 0, ⟨[], st, []⟩⟩

/-- Number of loop indices below `n` whose path satisfies `p`. -/
def countPaths (p : IterOutcome → Bool) (o : Nat → IterOutcome) (n : Nat) : Nat :=
  ((List.range n).filter (fun i => p (o i))).length

/-- What holds of a `ClientRun` at every point of every schedule. -/
structure ClientRun.Inv (name : String) (oA oB : Nat → IterOutcome) (st : Stats)
    (r : ClientRun) : Prop where
  boundA : r.iA ≤ 50
  boundB : r.iB ≤ 50
  tally : total r.ws.clientStats =
    countPaths IterOutcome.received oA r.iA + countPaths IterOutcome.received oB r.iB
  pos : (r.ws.stats.client name).Positive = (st.client name).Positive +
    (countPaths IterOutcome.success oA r.iA + countPaths IterOutcome.success oB r.iB)
  neg : (r.ws.stats.client name).Negative = (st.client name).Negative +
    (countPaths IterOutcome.failure oA r.iA + countPaths IterOutcome.failure oB r.iB)
  server : r.ws.stats.Server = st.Server
  others : ∀ other : String, other ≠ name → r.ws.stats.client other = st.client other

/-! ## The batch lock across workers -/

/-- Where a worker stands in its loop: about to run `if i%5 == 0 { workerMu.Lock() }`, or
past it, in the rest of the body (the request and what follows it). -/
inductive Phase where
  | atLock
  | inBody
  deriving DecidableEq, Repr

structure WorkerPC where
  i : Nat
  phase : Phase
  deriving DecidableEq, Repr

/-- The four workers (two per client) and the mutex `workerMu` (`true` when locked). -/
structure Pool where
  workerMu : Bool
  pcs : Fin 4 → WorkerPC

/-- All workers at the start of their loop, the mutex free. -/
def Pool.init : Pool := ⟨false, fun _ => ⟨0, .atLock⟩⟩

/-- Worker `w` takes its next step, on control path `o` when the step is the loop body.
A worker whose `workerMu.Lock()` finds the mutex locked stays where it is; a worker whose
loop has ended does nothing. -/
def Pool.step (s : Pool) (w : Fin 4) (o : IterOutcome) : Pool :=
  let pc := s.pcs w
  if pc.i < 50 then
    match pc.phase with
    | .atLock =>
        if pc.i % 5 = 0 then
          if s.workerMu then s
          else ⟨true, Function.update s.pcs w ⟨pc.i, .inBody⟩⟩
        else ⟨s.workerMu, Function.update s.pcs w ⟨pc.i, .inBody⟩⟩
    | .inBody =>
        match o with
        | .limiterErr =>
            ⟨if pc.i % 5 = 4 then false else s.workerMu,
              Function.update s.pcs w ⟨pc.i + 1, .atLock⟩⟩
        | .requestErr =>
            ⟨if pc.i % 5 = 4 then false else s.workerMu,
              Function.update s.pcs w ⟨pc.i + 1, .atLock⟩⟩
        | .transportErr =>
            ⟨if pc.i % 5 = 4 then false else s.workerMu,
              Function.update s.pcs w ⟨pc.i + 1, .atLock⟩⟩
        | .response _ =>
            ⟨if pc.i % 5 = 4 then false else s.workerMu,
              Function.update s.pcs w ⟨pc.i + 1, .atLock⟩⟩
  else s

/-- The four workers and the mutex after the steps of a schedule. -/
def Pool.run (sched : List (Fin 4 × IterOutcome)) : Pool :=
  sched.foldl (fun s x => s.step x.1 x.2) Pool.init

/-- The worker is inside a batch: past the `Lock` of its first request and before the
`Unlock` that follows its last one. -/
def WorkerPC.midBatch (pc : WorkerPC) : Bool :=
  pc.phase == .inBody || pc.i % 5 != 0

/-- The worker has a request of its batch under way. -/
def WorkerPC.inFlight (pc : WorkerPC) : Bool :=
  pc.phase == .inBody

/-! ## The health supervisor -/

/-- The loop state of `checkServer`: the counter `afterIter`, and whether the function has
closed `clientsDone` and returned. -/
structure CheckState where
  afterIter : Nat
  closed : Bool
  deriving DecidableEq, Repr

/-- One tick of the loop in `checkServer`; `len` is the value of `len(clientsDone)`. The
health probe that follows only logs. -/
def checkServerTick (len : Nat) (s : CheckState) : CheckState :=
  if s.closed then s
  else if len = 2 then
    if s.afterIter = 6 then { s with closed := true }
    else { s with afterIter := s.afterIter + 1 }
  else s

/-- The state of `checkServer` after the ticks `0, …, n-1`; `len i` is observed on tick `i`. -/
def checkServer (len : Nat → Nat) : Nat → CheckState
  | 0 => ⟨0, false⟩
  | n + 1 => checkServerTick (len n) (checkServer len n)

/-- What holds in every reachable state: the workers inside a batch are at
most one, and there is none while `workerMu` is free. -/
structure Pool.Inv (s : Pool) : Prop where
  unique : ∀ w1 w2 : Fin 4, (s.pcs w1).midBatch = true → (s.pcs w2).midBatch = true → w1 = w2
  free : s.workerMu = false → ∀ w : Fin 4, (s.pcs w).midBatch = false


/-! ## Auxiliary facts: maps -/

theorem GoMap.get_set_same {κ ν : Type} [DecidableEq κ] (z : ν) (m : GoMap κ ν) (k : κ) (v : ν) :
    GoMap.get z (GoMap.set m k v) k = v := by
  induction m with
  | nil => simp [GoMap.set, GoMap.get]
  | cons p rest ih =>
    obtain ⟨a, b⟩ := p
    by_cases h : a = k
    · simp [GoMap.set, GoMap.get, h]
    · simp [GoMap.set, GoMap.get, h, ih]

theorem GoMap.get_set_other {κ ν : Type} [DecidableEq κ] (z : ν) (m : GoMap κ ν) (k j : κ)
    (v : ν) (hne : j ≠ k) : GoMap.get z (GoMap.set m k v) j = GoMap.get z m j := by
  induction m with
  | nil => simp [GoMap.set, GoMap.get, Ne.symm hne]
  | cons p rest ih =>
    obtain ⟨a, b⟩ := p
    by_cases h : a = k
    · subst h
      simp [GoMap.set, GoMap.get, Ne.symm hne]
    · by_cases h2 : a = j
      · subst h2
        simp [GoMap.set, GoMap.get, h]
      · simp [GoMap.set, GoMap.get, h, h2, ih]

/-! ## Auxiliary facts: server side -/

theorem generateStatus_cases (d1 d2 : Nat) :
    generateStatus d1 d2 = 200 ∨ generateStatus d1 d2 = 202 ∨
      generateStatus d1 d2 = 400 ∨ generateStatus d1 d2 = 500 := by
  unfold generateStatus StatusOK StatusAccepted StatusBadRequest StatusInternalServerError
  split_ifs <;> simp

/-- What one call of the pipeline does to the aggregate: nothing when the request is not
a passed `POST`, otherwise one increment of the counter matching the generated status. -/
theorem rateLimitMiddleware_snd (a : Arrival) (st : Stats) :
    (rateLimitMiddleware a.allow a.req a.d1 a.d2 st).2 =
      if a.req.Method = "POST" ∧ a.passed = true then
        if generateStatus a.d1 a.d2 = 200 ∨ generateStatus a.d1 a.d2 = 202 then
          ⟨⟨st.Server.Positive + 1, st.Server.Negative⟩, st.Clients⟩
        else ⟨⟨st.Server.Positive, st.Server.Negative + 1⟩, st.Clients⟩
      else st := by
  obtain ⟨allow, ⟨m, c⟩, d1, d2⟩ := a
  unfold rateLimitMiddleware handleRequest Arrival.passed StatusOK StatusAccepted
  cases allow
  · simp
  · by_cases hm : m = "POST"
    · by_cases h1 : c = "client1"
      · simp only [hm, h1]
        split_ifs <;> simp_all
      · by_cases h2 : c = "client2"
        · simp only [hm, h2]
          split_ifs <;> simp_all
        · simp [hm, h1, h2]
    · simp [hm]

theorem serveAll_server (as : List Arrival) (hpost : ∀ a ∈ as, a.req.Method = "POST")
    (st : Stats) :
    (serveAll st as).Server.Positive = st.Server.Positive +
        (as.filter (fun a => a.passed &&
          (generateStatus a.d1 a.d2 == 200 || generateStatus a.d1 a.d2 == 202))).length ∧
    (serveAll st as).Server.Negative = st.Server.Negative +
        (as.filter (fun a => a.passed &&
          (generateStatus a.d1 a.d2 == 400 || generateStatus a.d1 a.d2 == 500))).length ∧
    (serveAll st as).Clients = st.Clients := by
  induction as generalizing st with
  | nil => simp [serveAll]
  | cons a rest ih =>
    have hm : a.req.Method = "POST" := hpost a (List.mem_cons_self _ _)
    have hrest : ∀ b ∈ rest, b.req.Method = "POST" :=
      fun b hb => hpost b (List.mem_cons_of_mem _ hb)
    have step : serveAll st (a :: rest) =
        serveAll (rateLimitMiddleware a.allow a.req a.d1 a.d2 st).2 rest := by
      simp [serveAll]
    rw [step, rateLimitMiddleware_snd]
    obtain ⟨ihP, ihN, ihC⟩ := ih hrest
      (if a.req.Method = "POST" ∧ a.passed = true then
        if generateStatus a.d1 a.d2 = 200 ∨ generateStatus a.d1 a.d2 = 202 then
          ⟨⟨st.Server.Positive + 1, st.Server.Negative⟩, st.Clients⟩
        else ⟨⟨st.Server.Positive, st.Server.Negative + 1⟩, st.Clients⟩
      else st)
    rw [ihP, ihN, ihC]
    by_cases hp : a.passed = true
    · rcases generateStatus_cases a.d1 a.d2 with h | h | h | h <;>
        simp [hm, hp, h, List.filter_cons] <;> omega
    · simp [hm, hp, List.filter_cons]

/-- The status answered by the pipeline, as a cascade of the three checks. -/
theorem rateLimitMiddleware_fst (allow : Bool) (r : Request) (d1 d2 : Nat) (st : Stats) :
    (rateLimitMiddleware allow r d1 d2 st).1 =
      (if allow = false then 429
       else if r.Method ≠ "POST" then 405
       else if r.clientName ≠ "client1" ∧ r.clientName ≠ "client2" then 403
       else generateStatus d1 d2) := by
  unfold rateLimitMiddleware handleRequest StatusTooManyRequests StatusMethodNotAllowed
    StatusForbidden
  cases allow
  · simp
  · by_cases hm : r.Method = "POST"
    · by_cases hc : r.clientName ≠ "client1" ∧ r.clientName ≠ "client2"
      · simp [hm, hc]
      · simp only [hm, hc]
        simp
        split_ifs <;> rfl
    · simp [hm]

theorem rateLimitMiddleware_fst_passed (a : Arrival) (st : Stats)
    (hm : a.req.Method = "POST") (hp : a.passed = true) :
    (rateLimitMiddleware a.allow a.req a.d1 a.d2 st).1 = generateStatus a.d1 a.d2 := by
  have hids : a.allow = true ∧
      (a.req.clientName = "client1" ∨ a.req.clientName = "client2") := by
    simpa [Arrival.passed] using hp
  rw [rateLimitMiddleware_fst]
  rcases hids with ⟨h1, h2 | h2⟩ <;> simp [h1, hm, h2]

/-! ## Theorems: server side -/

/-- C7. For all draws the result of `generateStatus` is one of 200, 202, 400, 500; it is
200 or 202 exactly when `d1 < 7` and 400 or 500 exactly when not; `d2 = 0` selects the first
variant of the branch and `d2 = 1` the second; whatever `d2`, seven of the ten values of
`d1` give a positive status and three a negative one; of the twenty draw pairs seven give
200, seven 202, three 400 and three 500. -/
theorem generateStatus_table :
    (∀ d1 d2 : Nat, generateStatus d1 d2 = 200 ∨ generateStatus d1 d2 = 202 ∨
        generateStatus d1 d2 = 400 ∨ generateStatus d1 d2 = 500) ∧
    (∀ d1 d2 : Nat, (generateStatus d1 d2 = 200 ∨ generateStatus d1 d2 = 202) ↔ d1 < 7) ∧
    (∀ d1 d2 : Nat, (generateStatus d1 d2 = 400 ∨ generateStatus d1 d2 = 500) ↔ ¬ d1 < 7) ∧
    (∀ d1 : Nat, generateStatus d1 0 = if d1 < 7 then 200 else 400) ∧
    (∀ d1 : Nat, generateStatus d1 1 = if d1 < 7 then 202 else 500) ∧
    (∀ d2 : Nat, ((List.range 10).filter (fun d1 =>
        generateStatus d1 d2 == 200 || generateStatus d1 d2 == 202)).length = 7) ∧
    (∀ d2 : Nat, ((List.range 10).filter (fun d1 =>
        generateStatus d1 d2 == 400 || generateStatus d1 d2 == 500)).length = 3) ∧
    (((List.range 10).product (List.range 2)).filter
        (fun p => generateStatus p.1 p.2 == 200)).length = 7 ∧
    (((List.range 10).product (List.range 2)).filter
        (fun p => generateStatus p.1 p.2 == 202)).length = 7 ∧
    (((List.range 10).product (List.range 2)).filter
        (fun p => generateStatus p.1 p.2 == 400)).length = 3 ∧
    (((List.range 10).product (List.range 2)).filter
        (fun p => generateStatus p.1 p.2 == 500)).length = 3 ∧
    ((List.range 10).product (List.range 2)).length = 20 := by
  have hpos : ∀ d1 d2 : Nat,
      (generateStatus d1 d2 = 200 ∨ generateStatus d1 d2 = 202) ↔ d1 < 7 := by
    intro d1 d2
    unfold generateStatus StatusOK StatusAccepted StatusBadRequest StatusInternalServerError
    split_ifs <;> simp [*]
  have hneg : ∀ d1 d2 : Nat,
      (generateStatus d1 d2 = 400 ∨ generateStatus d1 d2 = 500) ↔ ¬ d1 < 7 := by
    intro d1 d2
    unfold generateStatus StatusOK StatusAccepted StatusBadRequest StatusInternalServerError
    split_ifs <;> simp [*]
  refine ⟨generateStatus_cases, hpos, hneg, ?_, ?_, ?_, ?_, by decide, by decide, by decide,
    by decide, by decide⟩
  · intro d1
    unfold generateStatus StatusOK StatusBadRequest
    simp
  · intro d1
    unfold generateStatus StatusAccepted StatusInternalServerError
    simp
  · intro d2
    have hfun : (fun d1 => generateStatus d1 d2 == 200 || generateStatus d1 d2 == 202) =
        (fun d1 => decide (d1 < 7)) := by
      funext d1
      have := hpos d1 d2
      by_cases h : d1 < 7 <;> simp [h] at this ⊢ <;> simpa using this
    rw [hfun]
    decide
  · intro d2
    have hfun : (fun d1 => generateStatus d1 d2 == 400 || generateStatus d1 d2 == 500) =
        (fun d1 => decide (¬ d1 < 7)) := by
      funext d1
      have := hneg d1 d2
      by_cases h : d1 < 7 <;> simp [h] at this ⊢ <;> simpa using this
    rw [hfun]
    decide

/-- C1. A request to the `POST /` pipeline that is answered with 429, 405 or 403 leaves the
whole `Stats` aggregate (the server summary and the clients map) as it was; in particular a
`POST` admitted by the limiter whose `X-Client-Name` is `client3` is answered 403 and
changes nothing. -/
theorem rejected_request_keeps_stats (allow : Bool) (r : Request) (d1 d2 : Nat) (st : Stats)
    (h : (rateLimitMiddleware allow r d1 d2 st).1 = 429 ∨
         (rateLimitMiddleware allow r d1 d2 st).1 = 405 ∨
         (rateLimitMiddleware allow r d1 d2 st).1 = 403) :
    (rateLimitMiddleware allow r d1 d2 st).2 = st ∧
    rateLimitMiddleware true ⟨"POST", "client3"⟩ d1 d2 st = (403, st) := by
  refine ⟨?_, by simp [rateLimitMiddleware, handleRequest, StatusForbidden]⟩
  have hs := rateLimitMiddleware_snd ⟨allow, r, d1, d2⟩ st
  simp only at hs
  rw [hs]
  split_ifs with hp hg
  · exfalso
    obtain ⟨hm, hpass⟩ := hp
    have hids : allow = true ∧ (r.clientName = "client1" ∨ r.clientName = "client2") := by
      simpa [Arrival.passed] using hpass
    have hst : (rateLimitMiddleware allow r d1 d2 st).1 = generateStatus d1 d2 := by
      unfold rateLimitMiddleware handleRequest
      rcases hids with ⟨ha, hc | hc⟩ <;> simp [ha, hm, hc] <;> split_ifs <;> rfl
    rw [hst] at h
    rcases hg with hg | hg <;> omega
  · exfalso
    obtain ⟨hm, hpass⟩ := hp
    have hids : allow = true ∧ (r.clientName = "client1" ∨ r.clientName = "client2") := by
      simpa [Arrival.passed] using hpass
    have hst : (rateLimitMiddleware allow r d1 d2 st).1 = generateStatus d1 d2 := by
      unfold rateLimitMiddleware handleRequest
      rcases hids with ⟨ha, hc | hc⟩ <;> simp [ha, hm, hc] <;> split_ifs <;> rfl
    rw [hst] at h
    rcases generateStatus_cases d1 d2 with g | g | g | g <;> omega
  · rfl

theorem rejected_request_keeps_stats_witness :
    (rateLimitMiddleware false ⟨"POST", "client1"⟩ 3 1 ⟨⟨4, 2⟩, [("client1", ⟨1, 1⟩)]⟩).1 = 429 ∧
    (rateLimitMiddleware false ⟨"POST", "client1"⟩ 3 1 ⟨⟨4, 2⟩, [("client1", ⟨1, 1⟩)]⟩).2 =
      ⟨⟨4, 2⟩, [("client1", ⟨1, 1⟩)]⟩ :=
  ⟨by decide,
   (rejected_request_keeps_stats false ⟨"POST", "client1"⟩ 3 1 ⟨⟨4, 2⟩, [("client1", ⟨1, 1⟩)]⟩
      (Or.inl (by decide))).1⟩

/-- C2. The status answered by the `POST /` pipeline is 429 when the limiter refuses;
otherwise 405 when the method is not `POST`; otherwise 403 when the identity is neither
`client1` nor `client2`; otherwise the value of `generateStatus`, one of 200, 202, 400, 500.
No other status is produced. -/
theorem pipeline_status (allow : Bool) (r : Request) (d1 d2 : Nat) (st : Stats) :
    (rateLimitMiddleware allow r d1 d2 st).1 =
      (if allow = false then 429
       else if r.Method ≠ "POST" then 405
       else if r.clientName ≠ "client1" ∧ r.clientName ≠ "client2" then 403
       else generateStatus d1 d2) ∧
    generateStatus d1 d2 ∈ [200, 202, 400, 500] ∧
    (rateLimitMiddleware allow r d1 d2 st).1 ∈ [429, 405, 403, 200, 202, 400, 500] := by
  have hg := generateStatus_cases d1 d2
  have hstatus := rateLimitMiddleware_fst allow r d1 d2 st
  refine ⟨hstatus, ?_, ?_⟩
  · rcases hg with g | g | g | g <;> simp [g]
  · rw [hstatus]
    split_ifs
    · simp
    · simp
    · simp
    · rcases hg with g | g | g | g <;> simp [g]

/-- C3. Serving any finite sequence of `POST` requests from the empty aggregate, with any
limiter decisions, identities and draws: `server.positive + server.negative` equals the
number of requests that passed the rate-limit check and the identity check; `server.positive`
counts those of them answered 200 or 202 and `server.negative` those answered 400 or 500;
a passed request increments exactly one counter by one, a request that did not pass changes
nothing. -/
theorem server_counts_passed (as : List Arrival) (hpost : ∀ a ∈ as, a.req.Method = "POST") :
    (serveAll stats as).Server.Positive + (serveAll stats as).Server.Negative =
      (as.filter Arrival.passed).length ∧
    (serveAll stats as).Server.Positive =
      (as.filter (fun a => a.passed &&
        ((rateLimitMiddleware a.allow a.req a.d1 a.d2 stats).1 == 200 ||
         (rateLimitMiddleware a.allow a.req a.d1 a.d2 stats).1 == 202))).length ∧
    (serveAll stats as).Server.Negative =
      (as.filter (fun a => a.passed &&
        ((rateLimitMiddleware a.allow a.req a.d1 a.d2 stats).1 == 400 ||
         (rateLimitMiddleware a.allow a.req a.d1 a.d2 stats).1 == 500))).length ∧
    (∀ a ∈ as, ∀ st : Stats,
      (rateLimitMiddleware a.allow a.req a.d1 a.d2 st).2 =
        if a.passed = true then
          if (rateLimitMiddleware a.allow a.req a.d1 a.d2 st).1 = 200 ∨
             (rateLimitMiddleware a.allow a.req a.d1 a.d2 st).1 = 202 then
            ⟨⟨st.Server.Positive + 1, st.Server.Negative⟩, st.Clients⟩
          else ⟨⟨st.Server.Positive, st.Server.Negative + 1⟩, st.Clients⟩
        else st) ∧
    (∀ a ∈ as, ∀ st : Stats, a.passed = true →
      (rateLimitMiddleware a.allow a.req a.d1 a.d2 st).1 ∈ [200, 202, 400, 500]) := by
  have hstat : ∀ a ∈ as, ∀ st : Stats, a.passed = true →
      (rateLimitMiddleware a.allow a.req a.d1 a.d2 st).1 = generateStatus a.d1 a.d2 :=
    fun a ha st hp => rateLimitMiddleware_fst_passed a st (hpost a ha) hp
  obtain ⟨hP, hN, -⟩ := serveAll_server as hpost stats
  have hfP : as.filter (fun a => a.passed &&
        ((rateLimitMiddleware a.allow a.req a.d1 a.d2 stats).1 == 200 ||
         (rateLimitMiddleware a.allow a.req a.d1 a.d2 stats).1 == 202)) =
      as.filter (fun a => a.passed &&
        (generateStatus a.d1 a.d2 == 200 || generateStatus a.d1 a.d2 == 202)) := by
    apply List.filter_congr
    intro a ha
    by_cases hp : a.passed = true
    · rw [hstat a ha stats hp]
    · simp [hp]
  have hfN : as.filter (fun a => a.passed &&
        ((rateLimitMiddleware a.allow a.req a.d1 a.d2 stats).1 == 400 ||
         (rateLimitMiddleware a.allow a.req a.d1 a.d2 stats).1 == 500)) =
      as.filter (fun a => a.passed &&
        (generateStatus a.d1 a.d2 == 400 || generateStatus a.d1 a.d2 == 500)) := by
    apply List.filter_congr
    intro a ha
    by_cases hp : a.passed = true
    · rw [hstat a ha stats hp]
    · simp [hp]
  have hsplit : ∀ l : List Arrival,
      (l.filter (fun a => a.passed &&
        (generateStatus a.d1 a.d2 == 200 || generateStatus a.d1 a.d2 == 202))).length +
      (l.filter (fun a => a.passed &&
        (generateStatus a.d1 a.d2 == 400 || generateStatus a.d1 a.d2 == 500))).length =
      (l.filter Arrival.passed).length := by
    intro l
    induction l with
    | nil => simp
    | cons a rest ih =>
      by_cases hp : a.passed = true
      · rcases generateStatus_cases a.d1 a.d2 with h | h | h | h <;>
          simp [List.filter_cons, hp, h] <;> omega
      · simp [List.filter_cons, hp]
        simpa using ih
  refine ⟨?_, ?_, ?_, ?_, ?_⟩
  · rw [hP, hN, ← hsplit as]
    simp [stats]
  · rw [hP, hfP]
    simp [stats]
  · rw [hN, hfN]
    simp [stats]
  · intro a ha st
    rw [rateLimitMiddleware_snd]
    by_cases hp : a.passed = true
    · rw [hstat a ha st hp]
      simp [hpost a ha, hp]
    · simp [hp]
  · intro a ha st hp
    rw [hstat a ha st hp]
    rcases generateStatus_cases a.d1 a.d2 with g | g | g | g <;> simp [g]

theorem server_counts_passed_witness :
    (serveAll stats
        [⟨true, ⟨"POST", "client1"⟩, 0, 0⟩, ⟨false, ⟨"POST", "client2"⟩, 0, 0⟩,
         ⟨true, ⟨"POST", "client3"⟩, 0, 0⟩, ⟨true, ⟨"POST", "client2"⟩, 8, 1⟩]).Server.Positive +
      (serveAll stats
        [⟨true, ⟨"POST", "client1"⟩, 0, 0⟩, ⟨false, ⟨"POST", "client2"⟩, 0, 0⟩,
         ⟨true, ⟨"POST", "client3"⟩, 0, 0⟩, ⟨true, ⟨"POST", "client2"⟩, 8, 1⟩]).Server.Negative =
      ([(⟨true, ⟨"POST", "client1"⟩, 0, 0⟩ : Arrival), ⟨false, ⟨"POST", "client2"⟩, 0, 0⟩,
         ⟨true, ⟨"POST", "client3"⟩, 0, 0⟩, ⟨true, ⟨"POST", "client2"⟩, 8, 1⟩].filter
        Arrival.passed).length :=
  (server_counts_passed
    [⟨true, ⟨"POST", "client1"⟩, 0, 0⟩, ⟨false, ⟨"POST", "client2"⟩, 0, 0⟩,
     ⟨true, ⟨"POST", "client3"⟩, 0, 0⟩, ⟨true, ⟨"POST", "client2"⟩, 8, 1⟩]
    (by decide)).1

/-! ## Auxiliary facts: the limiter -/

theorem Server.serve_eq (sv : Server) (now : Nat) (r : Request) (d1 d2 : Nat) :
    sv.serve now r d1 d2 =
      (((sv.limiter.Allow now).1,
        (rateLimitMiddleware (sv.limiter.Allow now).1 r d1 d2 sv.st).1),
       ⟨(sv.limiter.Allow now).2,
        (rateLimitMiddleware (sv.limiter.Allow now).1 r d1 d2 sv.st).2⟩) := rfl

theorem Server.serveTimed_cons (sv : Server) (q : TimedRequest) (qs : List TimedRequest) :
    sv.serveTimed (q :: qs) =
      (sv.serve q.time q.req q.d1 q.d2).1 ::
        Server.serveTimed (sv.serve q.time q.req q.d1 q.d2).2 qs := rfl

/-- The first call of a fresh bucket of rate 5 and burst 5 is granted and leaves 4 tokens. -/
theorem Limiter.Allow_first (now : Nat) :
    (NewLimiter 5 5).Allow now = (true, ⟨5, 5, 4 * Limiter.unit, now⟩) := by
  have hmin : min (5 * Limiter.unit) (5 * Limiter.unit + 5 * now) = 5 * Limiter.unit :=
    Nat.min_eq_left (by omega)
  simp only [Limiter.Allow, NewLimiter, Nat.sub_zero, hmin]
  unfold Limiter.unit
  simp

/-- A bucket of rate 5 and burst 5 that holds at least `k + 1` tokens grants the next call;
the bounds on its content move down by one token. `t0` is the time of the first call: the
content is what is left of the burst plus the refill since `t0`, unless the cap has cut it. -/
theorem Limiter.Allow_grant (lim : Limiter) (now t0 k : Nat)
    (hl : lim.limit = 5) (hb : lim.burst = 5) (hk : k + 2 ≤ 5)
    (h0 : t0 ≤ lim.last) (hnow : lim.last ≤ now)
    (hlo : (k + 1) * Limiter.unit ≤ lim.tokens)
    (hhi : lim.tokens ≤ (k + 1) * Limiter.unit + 5 * (lim.last - t0))
    (hcut : (k + 1) * Limiter.unit + 5 * (lim.last - t0) ≤ lim.tokens ∨
      (k + 2) * Limiter.unit ≤ lim.tokens) :
    (lim.Allow now).1 = true ∧ (lim.Allow now).2.limit = 5 ∧ (lim.Allow now).2.burst = 5 ∧
    (lim.Allow now).2.last = now ∧ k * Limiter.unit ≤ (lim.Allow now).2.tokens ∧
    (lim.Allow now).2.tokens ≤ k * Limiter.unit + 5 * (now - t0) ∧
    (k * Limiter.unit + 5 * (now - t0) ≤ (lim.Allow now).2.tokens ∨
      (k + 1) * Limiter.unit ≤ (lim.Allow now).2.tokens) := by
  unfold Limiter.Allow
  simp only [hl, hb]
  unfold Limiter.unit at *
  have hmin : 1000000000 ≤ min (5 * 1000000000) (lim.tokens + 5 * (now - lim.last)) := by
    rw [Nat.le_min]
    constructor <;> omega
  simp only [hmin, if_true]
  rcases Nat.le_total (5 * 1000000000) (lim.tokens + 5 * (now - lim.last)) with hc | hc
  · rw [Nat.min_eq_left hc]
    refine ⟨trivial, trivial, trivial, trivial, ?_, ?_, ?_⟩ <;> omega
  · rw [Nat.min_eq_right hc]
    refine ⟨trivial, trivial, trivial, trivial, ?_, ?_, ?_⟩ <;> omega

/-- A bucket of rate 5 and burst 5 holding at least one token after the refill grants. -/
theorem Limiter.Allow_grant_last (lim : Limiter) (now : Nat) (hl : lim.limit = 5)
    (hb : lim.burst = 5) (h : Limiter.unit ≤ lim.tokens + 5 * (now - lim.last)) :
    (lim.Allow now).1 = true := by
  unfold Limiter.Allow
  simp only [hl, hb]
  have hmin : Limiter.unit ≤ min (5 * Limiter.unit) (lim.tokens + 5 * (now - lim.last)) := by
    rw [Nat.le_min]
    constructor <;> omega
  simp only [hmin, if_true]

/-- A bucket of rate 5 holding less than one token after the refill refuses the call. -/
theorem Limiter.Allow_refuse (lim : Limiter) (now : Nat) (hl : lim.limit = 5)
    (h : lim.tokens + 5 * (now - lim.last) < Limiter.unit) :
    (lim.Allow now).1 = false := by
  unfold Limiter.Allow
  simp only [hl]
  have hmin : ¬ Limiter.unit ≤ min (lim.burst * Limiter.unit) (lim.tokens + 5 * (now - lim.last)) := by
    have := Nat.min_le_right (lim.burst * Limiter.unit) (lim.tokens + 5 * (now - lim.last))
    omega
  simp only [hmin, if_false]

/-- The answer to a `POST` of an allowed identity, given the limiter's decision. -/
theorem rateLimitMiddleware_allowed (ok : Bool) (r : Request) (d1 d2 : Nat) (st : Stats)
    (hm : r.Method = "POST") (hc : r.clientName = "client1" ∨ r.clientName = "client2") :
    (rateLimitMiddleware ok r d1 d2 st).1 = if ok = true then generateStatus d1 d2 else 429 := by
  rw [rateLimitMiddleware_fst]
  cases ok <;> rcases hc with hc | hc <;> simp [hm, hc]

/-! ## Theorems: the limiter -/

/-- C5, as stated, fails: six `POST` requests of `client1` arriving at 0 s (five of them) and
at 0.2 s, all within one second, all pass the limiter; the sixth is answered 200, not 429. -/
theorem six_within_one_second_all_pass :
    (∀ q ∈ [(⟨0, ⟨"POST", "client1"⟩, 0, 0⟩ : TimedRequest), ⟨0, ⟨"POST", "client1"⟩, 0, 0⟩,
        ⟨0, ⟨"POST", "client1"⟩, 0, 0⟩, ⟨0, ⟨"POST", "client1"⟩, 0, 0⟩,
        ⟨0, ⟨"POST", "client1"⟩, 0, 0⟩, ⟨200000000, ⟨"POST", "client1"⟩, 0, 0⟩],
      q.time ≤ Limiter.unit) ∧
    Server.init.serveTimed
      [⟨0, ⟨"POST", "client1"⟩, 0, 0⟩, ⟨0, ⟨"POST", "client1"⟩, 0, 0⟩,
        ⟨0, ⟨"POST", "client1"⟩, 0, 0⟩, ⟨0, ⟨"POST", "client1"⟩, 0, 0⟩,
        ⟨0, ⟨"POST", "client1"⟩, 0, 0⟩, ⟨200000000, ⟨"POST", "client1"⟩, 0, 0⟩] =
      [(true, 200), (true, 200), (true, 200), (true, 200), (true, 200), (true, 200)] := by
  decide

/-- C5, amended. With the ingress limiter a token bucket of rate 5 per second and burst 5,
initially full and refilled continuously: of six `POST` requests of allowed identities,
served in order of arrival, the first five pass the limiter (and get their generated
status); the sixth is refused with 429 when it arrives less than 0.2 s after the first,
and passes as well when it arrives 0.2 s or more after the first. -/
theorem six_rapid_requests (q1 q2 q3 q4 q5 q6 : TimedRequest)
    (hsorted : q1.time ≤ q2.time ∧ q2.time ≤ q3.time ∧ q3.time ≤ q4.time ∧
      q4.time ≤ q5.time ∧ q5.time ≤ q6.time)
    (hpost : ∀ q ∈ [q1, q2, q3, q4, q5, q6], q.req.Method = "POST")
    (hid : ∀ q ∈ [q1, q2, q3, q4, q5, q6],
      q.req.clientName = "client1" ∨ q.req.clientName = "client2") :
    (q6.time < q1.time + 200000000 →
      Server.init.serveTimed [q1, q2, q3, q4, q5, q6] =
        [(true, generateStatus q1.d1 q1.d2), (true, generateStatus q2.d1 q2.d2),
         (true, generateStatus q3.d1 q3.d2), (true, generateStatus q4.d1 q4.d2),
         (true, generateStatus q5.d1 q5.d2), (false, 429)]) ∧
    (q1.time + 200000000 ≤ q6.time →
      Server.init.serveTimed [q1, q2, q3, q4, q5, q6] =
        [(true, generateStatus q1.d1 q1.d2), (true, generateStatus q2.d1 q2.d2),
         (true, generateStatus q3.d1 q3.d2), (true, generateStatus q4.d1 q4.d2),
         (true, generateStatus q5.d1 q5.d2), (true, generateStatus q6.d1 q6.d2)]) := by
  obtain ⟨t12, t23, t34, t45, t56⟩ := hsorted
  -- the limiter after each call
  have e1 := Limiter.Allow_first q1.time
  have a1 : ((NewLimiter 5 5).Allow q1.time).1 = true := by rw [e1]
  have hL1 : ((NewLimiter 5 5).Allow q1.time).2 = ⟨5, 5, 4 * Limiter.unit, q1.time⟩ := by
    rw [e1]
  obtain ⟨a2, l2, b2, s2, lo2, hi2, cut2⟩ :=
    Limiter.Allow_grant ⟨5, 5, 4 * Limiter.unit, q1.time⟩ q2.time q1.time 3 rfl rfl
      (by omega) (le_refl _) t12 (le_refl _) (by simp) (Or.inl (by simp))
  set L2 := (Limiter.Allow ⟨5, 5, 4 * Limiter.unit, q1.time⟩ q2.time).2 with hL2
  obtain ⟨a3, l3, b3, s3, lo3, hi3, cut3⟩ :=
    Limiter.Allow_grant L2 q3.time q1.time 2 l2 b2 (by omega) (by omega) (by omega)
      lo2 (by rw [s2]; exact hi2) (by rw [s2]; exact cut2)
  set L3 := (L2.Allow q3.time).2 with hL3
  obtain ⟨a4, l4, b4, s4, lo4, hi4, cut4⟩ :=
    Limiter.Allow_grant L3 q4.time q1.time 1 l3 b3 (by omega) (by omega) (by omega)
      lo3 (by rw [s3]; exact hi3) (by rw [s3]; exact cut3)
  set L4 := (L3.Allow q4.time).2 with hL4
  obtain ⟨a5, l5, b5, s5, lo5, hi5, cut5⟩ :=
    Limiter.Allow_grant L4 q5.time q1.time 0 l4 b4 (by omega) (by omega) (by omega)
      lo4 (by rw [s4]; exact hi4) (by rw [s4]; exact cut4)
  set L5 := (L4.Allow q5.time).2 with hL5
  have m1 := rateLimitMiddleware_allowed
  constructor
  · intro h61
    have a6 : (L5.Allow q6.time).1 = false := by
      apply Limiter.Allow_refuse L5 q6.time l5
      rw [s5]
      unfold Limiter.unit at *
      omega
    simp only [Server.serveTimed_cons, Server.serve_eq, Server.init, Server.serveTimed,
      hL1, a1, ← hL2, a2, ← hL3, a3, ← hL4, a4, ← hL5, a5, a6]
    rw [m1 true q1.req _ _ _ (hpost q1 (by simp)) (hid q1 (by simp)),
      m1 true q2.req _ _ _ (hpost q2 (by simp)) (hid q2 (by simp)),
      m1 true q3.req _ _ _ (hpost q3 (by simp)) (hid q3 (by simp)),
      m1 true q4.req _ _ _ (hpost q4 (by simp)) (hid q4 (by simp)),
      m1 true q5.req _ _ _ (hpost q5 (by simp)) (hid q5 (by simp)),
      m1 false q6.req _ _ _ (hpost q6 (by simp)) (hid q6 (by simp))]
    simp
  · intro h16
    have a6 : (L5.Allow q6.time).1 = true := by
      apply Limiter.Allow_grant_last L5 q6.time l5 b5
      rw [s5]
      unfold Limiter.unit at *
      omega
    simp only [Server.serveTimed_cons, Server.serve_eq, Server.init, Server.serveTimed,
      hL1, a1, ← hL2, a2, ← hL3, a3, ← hL4, a4, ← hL5, a5, a6]
    rw [m1 true q1.req _ _ _ (hpost q1 (by simp)) (hid q1 (by simp)),
      m1 true q2.req _ _ _ (hpost q2 (by simp)) (hid q2 (by simp)),
      m1 true q3.req _ _ _ (hpost q3 (by simp)) (hid q3 (by simp)),
      m1 true q4.req _ _ _ (hpost q4 (by simp)) (hid q4 (by simp)),
      m1 true q5.req _ _ _ (hpost q5 (by simp)) (hid q5 (by simp)),
      m1 true q6.req _ _ _ (hpost q6 (by simp)) (hid q6 (by simp))]
    simp

theorem six_rapid_requests_witness :
    Server.init.serveTimed
      [⟨0, ⟨"POST", "client1"⟩, 0, 0⟩, ⟨10, ⟨"POST", "client2"⟩, 0, 1⟩,
        ⟨20, ⟨"POST", "client1"⟩, 7, 0⟩, ⟨30, ⟨"POST", "client2"⟩, 9, 1⟩,
        ⟨40, ⟨"POST", "client1"⟩, 6, 0⟩, ⟨199999999, ⟨"POST", "client2"⟩, 0, 0⟩] =
      [(true, 200), (true, 202), (true, 400), (true, 500), (true, 200), (false, 429)] :=
  (six_rapid_requests
    ⟨0, ⟨"POST", "client1"⟩, 0, 0⟩ ⟨10, ⟨"POST", "client2"⟩, 0, 1⟩
    ⟨20, ⟨"POST", "client1"⟩, 7, 0⟩ ⟨30, ⟨"POST", "client2"⟩, 9, 1⟩
    ⟨40, ⟨"POST", "client1"⟩, 6, 0⟩ ⟨199999999, ⟨"POST", "client2"⟩, 0, 0⟩
    (by decide) (by decide) (by decide)).1 (by decide)

/-! ## Theorems: the health supervisor -/

theorem checkServer_counting (len : Nat → Nat) (T : Nat) (h2 : ∀ i, T ≤ i → len i = 2)
    (hT : checkServer len T = ⟨0, false⟩) (k : Nat) (hk : k ≤ 6) :
    checkServer len (T + k) = ⟨k, false⟩ := by
  induction k with
  | zero => simpa using hT
  | succ k ih =>
    have hstep : checkServer len (T + (k + 1)) =
        checkServerTick (len (T + k)) (checkServer len (T + k)) := rfl
    rw [hstep, ih (by omega), h2 (T + k) (by omega)]
    have : k ≠ 6 := by omega
    simp [checkServerTick, this]

theorem checkServer_polling (len : Nat → Nat) (n : Nat) (h : ∀ i < n, len i < 2) :
    checkServer len n = ⟨0, false⟩ := by
  induction n with
  | zero => rfl
  | succ n ih =>
    have hstep : checkServer len (n + 1) = checkServerTick (len n) (checkServer len n) := rfl
    rw [hstep, ih (fun i hi => h i (by omega))]
    have : len n ≠ 2 := by
      have := h n (by omega)
      omega
    simp [checkServerTick, this]

/-- C6. With `len i` the number of pending completion signals seen on tick `i`, never
decreasing and at most the channel capacity 2, and `T` the first tick on which it is 2:
a tick on which the count is below 2 leaves the loop state as it is (no termination, no
change of `afterIter`); up to tick `T` the loop is polling with `afterIter = 0`; tick `T`
starts the count; after `k ≤ 6` ticks from `T` the counter is `k` and the loop still runs;
tick `T + 6`, the sixth after tick `T`, closes the channel and ends the loop. -/
theorem checkServer_terminates_sixth_tick (len : Nat → Nat) (T : Nat)
    (hmono : ∀ i j, i ≤ j → len i ≤ len j) (hcap : ∀ i, len i ≤ 2)
    (hT : len T = 2) (hfirst : ∀ i < T, len i < 2) :
    (∀ (s : CheckState) (c : Nat), c < 2 → checkServerTick c s = s) ∧
    (∀ i, len i < 2 → checkServer len (i + 1) = checkServer len i) ∧
    (∀ n ≤ T, checkServer len n = ⟨0, false⟩) ∧
    checkServer len (T + 1) = ⟨1, false⟩ ∧
    (∀ k ≤ 6, checkServer len (T + k) = ⟨k, false⟩) ∧
    (∀ n ≤ T + 6, (checkServer len n).closed = false) ∧
    checkServer len (T + 7) = ⟨6, true⟩ := by
  have htick : ∀ (s : CheckState) (c : Nat), c < 2 → checkServerTick c s = s := by
    intro s c hc
    have : c ≠ 2 := by omega
    simp [checkServerTick, this]
  have h2 : ∀ i, T ≤ i → len i = 2 := by
    intro i hi
    have := hmono T i hi
    have := hcap i
    omega
  have hpoll : ∀ n ≤ T, checkServer len n = ⟨0, false⟩ :=
    fun n hn => checkServer_polling len n (fun i hi => hfirst i (by omega))
  have hcount := checkServer_counting len T h2 (hpoll T le_rfl)
  refine ⟨htick, ?_, hpoll, hcount 1 (by omega), hcount, ?_, ?_⟩
  · intro i hi
    exact htick _ _ hi
  · intro n hn
    by_cases h : n ≤ T
    · rw [hpoll n h]
    · obtain ⟨k, rfl⟩ : ∃ k, n = T + k := ⟨n - T, by omega⟩
      rw [hcount k (by omega)]
  · have hstep : checkServer len (T + 7) =
        checkServerTick (len (T + 6)) (checkServer len (T + 6)) := rfl
    rw [hstep, hcount 6 le_rfl, h2 (T + 6) (by omega)]
    simp [checkServerTick]

theorem checkServer_terminates_sixth_tick_witness :
    (fun i : Nat => min i 2) 2 = 2 ∧
    checkServer (fun i => min i 2) (2 + 6) = ⟨6, false⟩ ∧
    checkServer (fun i => min i 2) (2 + 7) = ⟨6, true⟩ :=
  have h := checkServer_terminates_sixth_tick (fun i => min i 2) 2
    (fun i j hij => by simp only; omega) (fun i => by simp only; omega) (by decide)
    (fun i hi => by simp only; omega)
  ⟨by decide, h.2.2.2.2.1 6 le_rfl, h.2.2.2.2.2.2⟩


/-! ## Auxiliary facts: one worker -/

/-- The events one iteration adds to the trace. -/
theorem workerIter_trace (name : String) (i : Nat) (o : IterOutcome) (s : WorkerState) :
    (workerIter name i o s).trace = s.trace ++
      ((if i % 5 = 0 then [Event.lock i] else []) ++
       ((if o.sent = true then [Event.send i] else []) ++
        (if i % 5 = 4 then [Event.unlock i] else []))) := by
  by_cases h0 : i % 5 = 0 <;> by_cases h4 : i % 5 = 4 <;> cases o <;>
    simp [workerIter, h0, h4, WorkerState.emit, recordResponse, IterOutcome.sent]

theorem workerLoop_trace_inv (name : String) (o : Nat → IterOutcome) (cs : GoMap Nat Nat)
    (st : Stats) (n : Nat) :
    mutexReplay false (workerLoop name o n ⟨cs, st, []⟩).trace = some (decide (n % 5 ≠ 0)) ∧
    ((workerLoop name o n ⟨cs, st, []⟩).trace.filter Event.isLock).length = (n + 4) / 5 ∧
    ((workerLoop name o n ⟨cs, st, []⟩).trace.filter Event.isUnlock).length = n / 5 ∧
    (∀ i, Event.lock i ∈ (workerLoop name o n ⟨cs, st, []⟩).trace ↔ i < n ∧ i % 5 = 0) ∧
    (∀ i, Event.unlock i ∈ (workerLoop name o n ⟨cs, st, []⟩).trace ↔ i < n ∧ i % 5 = 4) ∧
    (∀ i, Event.send i ∈ (workerLoop name o n ⟨cs, st, []⟩).trace ↔
      i < n ∧ (o i).sent = true) := by
  induction n with
  | zero => simp [workerLoop, mutexReplay]
  | succ n ih =>
    obtain ⟨hr, hl, hu, ml, mu, ms⟩ := ih
    have htr : (workerLoop name o (n + 1) ⟨cs, st, []⟩).trace =
        (workerLoop name o n ⟨cs, st, []⟩).trace ++
          ((if n % 5 = 0 then [Event.lock n] else []) ++
           ((if (o n).sent = true then [Event.send n] else []) ++
            (if n % 5 = 4 then [Event.unlock n] else []))) := by
      show (workerIter name n (o n) _).trace = _
      rw [workerIter_trace]
    rw [htr]
    unfold mutexReplay at hr ⊢
    refine ⟨?_, ?_, ?_, ?_, ?_, ?_⟩
    · rw [List.foldl_append, hr]
      by_cases h0 : n % 5 = 0
      · have h4 : ¬ n % 5 = 4 := by omega
        have h1 : (n + 1) % 5 ≠ 0 := by omega
        by_cases hs : (o n).sent = true <;> simp [h0, h4, hs, h1, mutexStep]
      · by_cases h4 : n % 5 = 4
        · have h1 : (n + 1) % 5 = 0 := by omega
          by_cases hs : (o n).sent = true <;> simp [h0, h4, hs, h1, mutexStep]
        · have h1 : (n + 1) % 5 ≠ 0 := by omega
          by_cases hs : (o n).sent = true <;> simp [h0, h4, hs, h1, mutexStep]
    · rw [List.filter_append, List.length_append, hl]
      by_cases h0 : n % 5 = 0 <;> by_cases h4 : n % 5 = 4 <;>
        by_cases hs : (o n).sent = true <;>
        simp [h0, h4, hs, List.filter_cons, Event.isLock] <;> omega
    · rw [List.filter_append, List.length_append, hu]
      by_cases h0 : n % 5 = 0 <;> by_cases h4 : n % 5 = 4 <;>
        by_cases hs : (o n).sent = true <;>
        simp [h0, h4, hs, List.filter_cons, Event.isUnlock] <;> omega
    · intro i
      rw [List.mem_append, ml i]
      by_cases h0 : n % 5 = 0 <;> by_cases h4 : n % 5 = 4 <;>
        by_cases hs : (o n).sent = true <;> simp [h0, h4, hs] <;> omega
    · intro i
      rw [List.mem_append, mu i]
      by_cases h0 : n % 5 = 0 <;> by_cases h4 : n % 5 = 4 <;>
        by_cases hs : (o n).sent = true <;> simp [h0, h4, hs] <;> omega
    · intro i
      have hpiece : Event.send i ∈ ((if n % 5 = 0 then [Event.lock n] else []) ++
           ((if (o n).sent = true then [Event.send n] else []) ++
            (if n % 5 = 4 then [Event.unlock n] else []))) ↔ i = n ∧ (o n).sent = true := by
        by_cases h0 : n % 5 = 0 <;> by_cases h4 : n % 5 = 4 <;>
          by_cases hs : (o n).sent = true <;> simp [h0, h4, hs]
      rw [List.mem_append, ms i, hpiece]
      constructor
      · rintro (⟨h1, h2⟩ | ⟨rfl, h2⟩)
        · exact ⟨by omega, h2⟩
        · exact ⟨by omega, h2⟩
      · rintro ⟨h1, h2⟩
        by_cases hin : i = n
        · subst hin
          exact Or.inr ⟨rfl, h2⟩
        · exact Or.inl ⟨by omega, h2⟩

theorem mutexStep_foldl_none (tr : List Event) : tr.foldl mutexStep none = none := by
  induction tr with
  | nil => rfl
  | cons e rest ih => simpa [List.foldl_cons, mutexStep] using ih

/-- A trace that replays to the end replays at every point on the way. -/
theorem mutexReplay_take (held : Bool) (tr : List Event) (k : Nat)
    (h : mutexReplay held tr ≠ none) : mutexReplay held (tr.take k) ≠ none := by
  intro hk
  apply h
  unfold mutexReplay at hk ⊢
  conv_lhs => rw [← List.take_append_drop k tr]
  rw [List.foldl_append, hk, mutexStep_foldl_none]

/-! ## Theorems: one worker -/

/-- C9. One run of `worker` (50 iterations, each on any of the four control paths): the
batch lock is acquired exactly in the iterations with `i % 5 = 0` and released exactly in
those with `i % 5 = 4`, whatever the paths, and a request is sent exactly in the iterations
whose path reaches the transport; replayed against the mutex, the run at no point locks
while holding, unlocks while not holding, or sends a request while not holding, and it ends
not holding; it performs exactly 10 acquires and 10 releases. -/
theorem worker_batch_lock_discipline (name : String) (o : Nat → IterOutcome)
    (cs : GoMap Nat Nat) (st : Stats) :
    (∀ i, Event.lock i ∈ (worker name o ⟨cs, st, []⟩).trace ↔ i < 50 ∧ i % 5 = 0) ∧
    (∀ i, Event.unlock i ∈ (worker name o ⟨cs, st, []⟩).trace ↔ i < 50 ∧ i % 5 = 4) ∧
    (∀ i, Event.send i ∈ (worker name o ⟨cs, st, []⟩).trace ↔ i < 50 ∧ (o i).sent = true) ∧
    (∀ k, mutexReplay false ((worker name o ⟨cs, st, []⟩).trace.take k) ≠ none) ∧
    mutexReplay false (worker name o ⟨cs, st, []⟩).trace = some false ∧
    ((worker name o ⟨cs, st, []⟩).trace.filter Event.isLock).length = 10 ∧
    ((worker name o ⟨cs, st, []⟩).trace.filter Event.isUnlock).length = 10 := by
  obtain ⟨hr, hl, hu, ml, mu, ms⟩ := workerLoop_trace_inv name o cs st 50
  have hend : mutexReplay false (worker name o ⟨cs, st, []⟩).trace = some false := by
    simpa using hr
  refine ⟨ml, mu, ms, fun k => mutexReplay_take _ _ k ?_, hend, hl, hu⟩
  rw [hend]
  simp

/-! ## Auxiliary facts: the statistics of a client -/

theorem total_foldl (m : GoMap Nat Nat) (a : Nat) :
    m.foldl (fun total kv => total + kv.2) a = a + (m.map Prod.snd).sum := by
  induction m generalizing a with
  | nil => simp
  | cons p rest ih =>
    simp only [List.foldl_cons, List.map_cons, List.sum_cons, ih]
    omega

theorem total_eq_sum (m : GoMap Nat Nat) : total m = (m.map Prod.snd).sum := by
  unfold total
  rw [total_foldl]
  omega

/-- The statement `clientStats[k]++` adds one to the printed total. -/
theorem total_incr (m : GoMap Nat Nat) (k : Nat) :
    total (GoMap.set m k (GoMap.get 0 m k + 1)) = total m + 1 := by
  rw [total_eq_sum, total_eq_sum]
  induction m with
  | nil => simp [GoMap.set, GoMap.get]
  | cons p rest ih =>
    obtain ⟨a, b⟩ := p
    by_cases h : a = k
    · simp [GoMap.set, GoMap.get, h]
      omega
    · simp [GoMap.set, GoMap.get, h, ih]
      omega

/-- What one iteration does to the data: nothing unless a response was received, else the
statistics update. -/
theorem workerIter_data (name : String) (i : Nat) (o : IterOutcome) (s : WorkerState) :
    (workerIter name i o s).clientStats =
      (match o with
       | .response c => GoMap.set s.clientStats c (GoMap.get 0 s.clientStats c + 1)
       | _ => s.clientStats) ∧
    (workerIter name i o s).stats =
      (match o with
       | .response c => (recordResponse name c s).stats
       | _ => s.stats) := by
  by_cases h0 : i % 5 = 0 <;> by_cases h4 : i % 5 = 4 <;> cases o <;>
    simp [workerIter, h0, h4, WorkerState.emit, recordResponse]

theorem workerIter_total (name : String) (i : Nat) (o : IterOutcome) (s : WorkerState) :
    total (workerIter name i o s).clientStats =
      total s.clientStats + (if o.received = true then 1 else 0) := by
  rw [(workerIter_data name i o s).1]
  cases o <;> simp [IterOutcome.received, total_incr]

theorem workerIter_server (name : String) (i : Nat) (o : IterOutcome) (s : WorkerState) :
    (workerIter name i o s).stats.Server = s.stats.Server := by
  rw [(workerIter_data name i o s).2]
  cases o <;> simp [recordResponse]

theorem workerIter_other (name : String) (i : Nat) (o : IterOutcome) (s : WorkerState)
    (other : String) (hne : other ≠ name) :
    (workerIter name i o s).stats.client other = s.stats.client other := by
  rw [(workerIter_data name i o s).2]
  cases o <;> simp [recordResponse, Stats.client, GoMap.get_set_other _ _ _ _ _ hne]

theorem workerIter_own (name : String) (i : Nat) (o : IterOutcome) (s : WorkerState) :
    ((workerIter name i o s).stats.client name).Positive =
      (s.stats.client name).Positive + (if o.success = true then 1 else 0) ∧
    ((workerIter name i o s).stats.client name).Negative =
      (s.stats.client name).Negative + (if o.failure = true then 1 else 0) := by
  rw [(workerIter_data name i o s).2]
  cases o with
  | response c =>
    simp only [recordResponse, Stats.client, GoMap.get_set_same, IterOutcome.success,
      IterOutcome.failure, StatusOK, StatusAccepted, StatusBadRequest,
      StatusInternalServerError]
    by_cases h1 : c = 200
    · simp [h1]
    · by_cases h2 : c = 202
      · simp [h2]
      · by_cases h3 : c = 400
        · simp [h3]
        · by_cases h4 : c = 500
          · simp [h4]
          · simp [h1, h2, h3, h4]
  | _ => simp [IterOutcome.success, IterOutcome.failure]

theorem countPaths_succ (p : IterOutcome → Bool) (o : Nat → IterOutcome) (n : Nat) :
    countPaths p o (n + 1) = countPaths p o n + (if p (o n) = true then 1 else 0) := by
  unfold countPaths
  rw [List.range_succ, List.filter_append, List.length_append]
  by_cases h : p (o n) = true <;> simp [h]

theorem countPaths_le (p : IterOutcome → Bool) (o : Nat → IterOutcome) (n : Nat) :
    countPaths p o n ≤ n := by
  unfold countPaths
  calc ((List.range n).filter (fun i => p (o i))).length
      ≤ (List.range n).length := List.length_filter_le _ _
    _ = n := List.length_range n

/-- Every received response is a success, a failure, or has another status. -/
theorem received_split (o : IterOutcome) :
    (if o.received = true then 1 else 0) =
      (if o.success = true then 1 else 0) + (if o.failure = true then 1 else 0) +
      (if (o.received && !o.counted) = true then 1 else 0) := by
  cases o with
  | response c =>
    simp only [IterOutcome.received, IterOutcome.success, IterOutcome.failure,
      IterOutcome.counted]
    by_cases h1 : c = 200
    · simp [h1]
    · by_cases h2 : c = 202
      · simp [h2]
      · by_cases h3 : c = 400
        · simp [h3]
        · by_cases h4 : c = 500
          · simp [h4]
          · simp [h1, h2, h3, h4]
  | _ => simp [IterOutcome.received, IterOutcome.success, IterOutcome.failure]

theorem counted_split (o : IterOutcome) :
    (if o.counted = true then 1 else 0) =
      (if o.success = true then 1 else 0) + (if o.failure = true then 1 else 0) := by
  cases o with
  | response c =>
    simp only [IterOutcome.success, IterOutcome.failure, IterOutcome.counted]
    by_cases h1 : c = 200
    · simp [h1]
    · by_cases h2 : c = 202
      · simp [h2]
      · by_cases h3 : c = 400
        · simp [h3]
        · by_cases h4 : c = 500
          · simp [h4]
          · simp [h1, h2, h3, h4]
  | _ => simp [IterOutcome.counted, IterOutcome.success, IterOutcome.failure]

theorem runIters_own (name : String) (its : List (Nat × IterOutcome)) (s : WorkerState) :
    ((runIters name its s).stats.client name).Positive =
      (s.stats.client name).Positive + (its.filter (fun it => it.2.success)).length ∧
    ((runIters name its s).stats.client name).Negative =
      (s.stats.client name).Negative + (its.filter (fun it => it.2.failure)).length := by
  induction its generalizing s with
  | nil => simp [runIters]
  | cons it rest ih =>
    have hstep : runIters name (it :: rest) s =
        runIters name rest (workerIter name it.1 it.2 s) := by
      simp [runIters]
    rw [hstep]
    obtain ⟨hP, hN⟩ := ih (workerIter name it.1 it.2 s)
    obtain ⟨oP, oN⟩ := workerIter_own name it.1 it.2 s
    rw [hP, hN, oP, oN]
    constructor
    · by_cases h : it.2.success = true
      · simp [List.filter_cons, h]
        omega
      · simp [List.filter_cons, h]
    · by_cases h : it.2.failure = true
      · simp [List.filter_cons, h]
        omega
      · simp [List.filter_cons, h]

theorem filter_counted_length (its : List (Nat × IterOutcome)) :
    (its.filter (fun it => it.2.counted)).length =
      (its.filter (fun it => it.2.success)).length +
      (its.filter (fun it => it.2.failure)).length := by
  induction its with
  | nil => simp
  | cons it rest ih =>
    have h := counted_split it.2
    by_cases hc : it.2.counted = true <;> by_cases hs : it.2.success = true <;>
      by_cases hf : it.2.failure = true <;>
      simp [hc, hs, hf] at h <;> simp [List.filter_cons, hc, hs, hf, ih] <;> omega

/-! ## Theorems: the statistics of a client -/

/-- C4, as stated, fails: one worker iteration of `client1` that receives a response with
status 429 is a response received end-to-end, yet `clients["client1"]` stays at 0 + 0. -/
theorem response_429_not_counted :
    ([((0 : Nat), IterOutcome.response 429)].filter (fun it => it.2.received)).length = 1 ∧
    ((runIters "client1" [(0, .response 429)] ⟨[], stats, []⟩).stats.client "client1").Positive +
    ((runIters "client1" [(0, .response 429)] ⟨[], stats, []⟩).stats.client "client1").Negative
      = 0 := by
  decide

/-- C4, amended. For every client name and every sequence of iterations of that client's
workers (each failing before a response or receiving a response with any status), from any
state: `clients[name].positive` grows by the number of responses with status 200 or 202 and
`clients[name].negative` by the number with status 400 or 500; from the empty aggregate
their sum is the number of responses received whose status is one of 200, 202, 400, 500. -/
theorem client_counts_four_statuses (name : String) (its : List (Nat × IterOutcome))
    (s : WorkerState) :
    ((runIters name its s).stats.client name).Positive =
      (s.stats.client name).Positive + (its.filter (fun it => it.2.success)).length ∧
    ((runIters name its s).stats.client name).Negative =
      (s.stats.client name).Negative + (its.filter (fun it => it.2.failure)).length ∧
    ((runIters name its ⟨s.clientStats, stats, s.trace⟩).stats.client name).Positive +
      ((runIters name its ⟨s.clientStats, stats, s.trace⟩).stats.client name).Negative =
      (its.filter (fun it => it.2.counted)).length := by
  obtain ⟨hP, hN⟩ := runIters_own name its s
  obtain ⟨hP0, hN0⟩ := runIters_own name its ⟨s.clientStats, stats, s.trace⟩
  refine ⟨hP, hN, ?_⟩
  rw [hP0, hN0, filter_counted_length]
  simp [stats, Stats.client, GoMap.get]

/-! ## Auxiliary facts: the two workers of a client -/

theorem ClientRun.step_invariant (name : String) (oA oB : Nat → IterOutcome) (st : Stats)
    (r : ClientRun) (pickA : Bool) (h : ClientRun.Inv name oA oB st r) :
    ClientRun.Inv name oA oB st (ClientRun.step name oA oB r pickA) := by
  unfold ClientRun.step
  cases pickA
  · by_cases hlt : r.iB < 50
    · obtain ⟨oP, oN⟩ := workerIter_own name r.iB (oB r.iB) r.ws
      simp only [Bool.false_eq_true, if_false, hlt, if_true]
      refine ⟨h.boundA, by simp only; omega, ?_, ?_, ?_, ?_, ?_⟩
      · simp only [workerIter_total, countPaths_succ, h.tally]
        omega
      · simp only [oP, countPaths_succ, h.pos]
        omega
      · simp only [oN, countPaths_succ, h.neg]
        omega
      · simp only [workerIter_server, h.server]
      · intro other hne
        simp only [workerIter_other name _ _ _ other hne, h.others other hne]
    · simpa [hlt] using h
  · by_cases hlt : r.iA < 50
    · obtain ⟨oP, oN⟩ := workerIter_own name r.iA (oA r.iA) r.ws
      simp only [if_true, hlt]
      refine ⟨by simp only; omega, h.boundB, ?_, ?_, ?_, ?_, ?_⟩
      · simp only [workerIter_total, countPaths_succ, h.tally]
        omega
      · simp only [oP, countPaths_succ, h.pos]
        omega
      · simp only [oN, countPaths_succ, h.neg]
        omega
      · simp only [workerIter_server, h.server]
      · intro other hne
        simp only [workerIter_other name _ _ _ other hne, h.others other hne]
    · simpa [hlt] using h

theorem ClientRun.run_invariant (name : String) (oA oB : Nat → IterOutcome) (st : Stats)
    (sched : List Bool) (r : ClientRun) (h : ClientRun.Inv name oA oB st r) :
    ClientRun.Inv name oA oB st (sched.foldl (ClientRun.step name oA oB) r) := by
  induction sched generalizing r with
  | nil => exact h
  | cons b rest ih => exact ih _ (ClientRun.step_invariant name oA oB st r b h)

theorem clientRun_inv (name : String) (oA oB : Nat → IterOutcome) (sched : List Bool)
    (st : Stats) : ClientRun.Inv name oA oB st (clientRun name oA oB sched st) := by
  apply ClientRun.run_invariant
  refine ⟨by simp, by simp, ?_, ?_, ?_, rfl, fun _ _ => rfl⟩ <;>
    simp [countPaths, total]

theorem ClientRun.run_progress (name : String) (oA oB : Nat → IterOutcome)
    (sched : List Bool) (r : ClientRun) (hA : r.iA ≤ 50) (hB : r.iB ≤ 50) :
    (sched.foldl (ClientRun.step name oA oB) r).iA = min 50 (r.iA + sched.count true) ∧
    (sched.foldl (ClientRun.step name oA oB) r).iB = min 50 (r.iB + sched.count false) := by
  induction sched generalizing r with
  | nil => simp [hA, hB]
  | cons b rest ih =>
    rw [List.foldl_cons]
    cases b
    · by_cases hlt : r.iB < 50
      · have := ih (ClientRun.step name oA oB r false) (by simp [ClientRun.step, hlt, hA])
          (by simp [ClientRun.step, hlt]; omega)
        rw [this.1, this.2]
        simp [ClientRun.step, hlt]
        omega
      · have := ih (ClientRun.step name oA oB r false) (by simp [ClientRun.step, hlt, hA])
          (by simp [ClientRun.step, hlt]; omega)
        rw [this.1, this.2]
        simp [ClientRun.step, hlt]
        omega
    · by_cases hlt : r.iA < 50
      · have := ih (ClientRun.step name oA oB r true) (by simp [ClientRun.step, hlt]; omega)
          (by simp [ClientRun.step, hlt, hB])
        rw [this.1, this.2]
        simp [ClientRun.step, hlt]
        omega
      · have := ih (ClientRun.step name oA oB r true) (by simp [ClientRun.step, hlt]; omega)
          (by simp [ClientRun.step, hlt, hB])
        rw [this.1, this.2]
        simp [ClientRun.step, hlt]
        omega

theorem countPaths_received_split (o : Nat → IterOutcome) (n : Nat) :
    countPaths IterOutcome.received o n =
      countPaths IterOutcome.success o n + countPaths IterOutcome.failure o n +
      countPaths (fun x => x.received && !x.counted) o n := by
  induction n with
  | zero => simp [countPaths]
  | succ n ih =>
    simp only [countPaths_succ, ih]
    have := received_split (o n)
    omega

/-! ## Theorems: the two workers of a client -/

/-- C10. For the two workers of a client, interleaved in any way and on any control paths,
from any aggregate `st`, at every point of the run: each worker has run as many iterations
as it was scheduled for, up to 50; the total of `clientStats` (what the supervisor prints
once both are done) is the number of responses received so far, at most 100; together with
what `clients[name]` held at the start it equals `clients[name].positive +
clients[name].negative` plus the number of responses received with a status other than
200, 202, 400, 500 (so from an aggregate without counts for `name` the total is that sum
plus that number); the server summary and the summary of every other name are untouched,
by the run and by every single iteration. -/
theorem client_total_accounting (name : String) (oA oB : Nat → IterOutcome)
    (sched : List Bool) (st : Stats) :
    (clientRun name oA oB sched st).iA = min 50 (sched.count true) ∧
    (clientRun name oA oB sched st).iB = min 50 (sched.count false) ∧
    total (clientRun name oA oB sched st).ws.clientStats =
      countPaths IterOutcome.received oA (clientRun name oA oB sched st).iA +
      countPaths IterOutcome.received oB (clientRun name oA oB sched st).iB ∧
    total (clientRun name oA oB sched st).ws.clientStats ≤ 100 ∧
    total (clientRun name oA oB sched st).ws.clientStats +
        ((st.client name).Positive + (st.client name).Negative) =
      ((clientRun name oA oB sched st).ws.stats.client name).Positive +
      ((clientRun name oA oB sched st).ws.stats.client name).Negative +
      (countPaths (fun x => x.received && !x.counted) oA (clientRun name oA oB sched st).iA +
       countPaths (fun x => x.received && !x.counted) oB (clientRun name oA oB sched st).iB) ∧
    total (clientRun name oA oB sched stats).ws.clientStats =
      ((clientRun name oA oB sched stats).ws.stats.client name).Positive +
      ((clientRun name oA oB sched stats).ws.stats.client name).Negative +
      (countPaths (fun x => x.received && !x.counted) oA
          (clientRun name oA oB sched stats).iA +
       countPaths (fun x => x.received && !x.counted) oB
          (clientRun name oA oB sched stats).iB) ∧
    (clientRun name oA oB sched st).ws.stats.Server = st.Server ∧
    (∀ other : String, other ≠ name →
      (clientRun name oA oB sched st).ws.stats.client other = st.client other) ∧
    (∀ (i : Nat) (o : IterOutcome) (s : WorkerState),
      (workerIter name i o s).stats.Server = s.stats.Server ∧
      ∀ other : String, other ≠ name →
        (workerIter name i o s).stats.client other = s.stats.client other) := by
  have hinv := clientRun_inv name oA oB sched st
  have hinv0 := clientRun_inv name oA oB sched stats
  have hprog := ClientRun.run_progress name oA oB sched ⟨0, 0, ⟨[], st, []⟩⟩
    (Nat.zero_le _) (Nat.zero_le _)
  have hA := countPaths_le IterOutcome.received oA (clientRun name oA oB sched st).iA
  have hB := countPaths_le IterOutcome.received oB (clientRun name oA oB sched st).iB
  have sA := countPaths_received_split oA (clientRun name oA oB sched st).iA
  have sB := countPaths_received_split oB (clientRun name oA oB sched st).iB
  have sA0 := countPaths_received_split oA (clientRun name oA oB sched stats).iA
  have sB0 := countPaths_received_split oB (clientRun name oA oB sched stats).iB
  have bA := hinv.boundA
  have bB := hinv.boundB
  have z : (stats.client name).Positive = 0 ∧ (stats.client name).Negative = 0 := by
    simp [stats, Stats.client, GoMap.get]
  refine ⟨by simpa [clientRun] using hprog.1, by simpa [clientRun] using hprog.2,
    hinv.tally, ?_, ?_, ?_, hinv.server, hinv.others, ?_⟩
  · rw [hinv.tally]
    omega
  · rw [hinv.tally, hinv.pos, hinv.neg]
    omega
  · rw [hinv0.tally, hinv0.pos, hinv0.neg, z.1, z.2]
    omega
  · intro i o s
    exact ⟨workerIter_server name i o s, fun other hne => workerIter_other name i o s other hne⟩

theorem client_total_accounting_witness :
    total (clientRun "client1" (fun _ => .response 429) (fun _ => .response 200)
      [true, false, false] stats).ws.clientStats = 3 ∧
    (clientRun "client1" (fun _ => .response 429) (fun _ => .response 200)
      [true, false, false] stats).ws.stats.client "client2" = stats.client "client2" :=
  have h := client_total_accounting "client1" (fun _ => .response 429)
    (fun _ => .response 200) [true, false, false] stats
  ⟨h.2.2.1.trans (by decide), h.2.2.2.2.2.2.2.1 "client2" (by decide)⟩

/-! ## Auxiliary facts: the batch lock across workers -/

theorem Pool.init_ok : Pool.Inv Pool.init := by
  constructor
  · intro w1 w2 h1
    simp [Pool.init, WorkerPC.midBatch] at h1
  · intro _ w
    simp [Pool.init, WorkerPC.midBatch]

/-- A step that moves worker `w` to `pc` and sets the mutex to `mu` keeps the invariant
when `w` was or becomes the only worker inside a batch, as the mutex says. -/
theorem Pool.Inv.update (s : Pool) (h : Pool.Inv s) (w : Fin 4) (pc : WorkerPC)
    (mu : Bool)
    (hothers : pc.midBatch = true → ∀ v : Fin 4, v ≠ w → (s.pcs v).midBatch = false)
    (hfree : mu = false → pc.midBatch = false ∧
      ∀ v : Fin 4, v ≠ w → (s.pcs v).midBatch = false) :
    Pool.Inv ⟨mu, Function.update s.pcs w pc⟩ := by
  constructor
  · intro w1 w2 h1 h2
    simp only [Function.update_apply] at h1 h2
    by_cases e1 : w1 = w
    · by_cases e2 : w2 = w
      · rw [e1, e2]
      · simp only [e1, if_true, e2, if_false] at h1 h2
        have := hothers h1 w2 e2
        rw [this] at h2
        cases h2
    · by_cases e2 : w2 = w
      · simp only [e1, if_false, e2, if_true] at h1 h2
        have := hothers h2 w1 e1
        rw [this] at h1
        cases h1
      · simp only [e1, e2, if_false] at h1 h2
        exact h.unique w1 w2 h1 h2
  · intro hmu v
    simp only at hmu
    obtain ⟨hpc, hrest⟩ := hfree hmu
    simp only [Function.update_apply]
    by_cases e : v = w
    · simp only [e, if_true, hpc]
    · simp only [e, if_false, hrest v e]

/-- The exit of the loop body: worker `w`, inside a batch, moves to the next iteration and
unlocks when `i % 5 = 4`. -/
theorem Pool.Inv.body_exit (s : Pool) (h : Pool.Inv s) (w : Fin 4)
    (hph : (s.pcs w).phase = Phase.inBody) :
    Pool.Inv ⟨if (s.pcs w).i % 5 = 4 then false else s.workerMu,
      Function.update s.pcs w ⟨(s.pcs w).i + 1, .atLock⟩⟩ := by
  have hmid : (s.pcs w).midBatch = true := by simp [WorkerPC.midBatch, hph]
  have hrest : ∀ v : Fin 4, v ≠ w → (s.pcs v).midBatch = false := by
    intro v hv
    by_contra hc
    exact hv (h.unique v w (by simpa using hc) hmid)
  have hmu : s.workerMu = true := by
    by_contra hc
    have := h.free (by simpa using hc) w
    rw [hmid] at this
    cases this
  apply Pool.Inv.update s h w _ _ (fun _ => hrest)
  intro hfree
  refine ⟨?_, hrest⟩
  by_cases h4 : (s.pcs w).i % 5 = 4
  · have : ((s.pcs w).i + 1) % 5 = 0 := by omega
    simp [WorkerPC.midBatch, this]
  · simp [h4, hmu] at hfree

theorem Pool.step_keeps_inv (s : Pool) (w : Fin 4) (o : IterOutcome) (h : Pool.Inv s) :
    Pool.Inv (s.step w o) := by
  unfold Pool.step
  simp only
  by_cases hlt : (s.pcs w).i < 50
  · simp only [hlt, if_true]
    cases hph : (s.pcs w).phase with
    | atLock =>
      simp only
      by_cases h0 : (s.pcs w).i % 5 = 0
      · simp only [h0, if_true]
        cases hmu : s.workerMu with
        | true =>
          simp only [if_true]
          exact h
        | false =>
          simp only [Bool.false_eq_true, if_false]
          apply Pool.Inv.update s h w _ _ (fun _ v _ => h.free hmu v)
          intro hc
          cases hc
      · simp only [h0, if_false]
        have hmid : (s.pcs w).midBatch = true := by simp [WorkerPC.midBatch, h0]
        have hrest : ∀ v : Fin 4, v ≠ w → (s.pcs v).midBatch = false := by
          intro v hv
          by_contra hc
          exact hv (h.unique v w (by simpa using hc) hmid)
        apply Pool.Inv.update s h w _ _ (fun _ => hrest)
        intro hfree
        have := h.free hfree w
        rw [hmid] at this
        cases this
    | inBody =>
      cases o <;> exact Pool.Inv.body_exit s h w hph
  · simp only [hlt, if_false]
    exact h

theorem Pool.run_keeps_inv (sched : List (Fin 4 × IterOutcome)) (s : Pool)
    (h : Pool.Inv s) : Pool.Inv (sched.foldl (fun s x => s.step x.1 x.2) s) := by
  induction sched generalizing s with
  | nil => exact h
  | cons x rest ih => exact ih _ (Pool.step_keeps_inv s x.1 x.2 h)

theorem filter_length_le_one {α : Type} (l : List α) (hn : l.Nodup) (p : α → Bool)
    (hu : ∀ a b : α, p a = true → p b = true → a = b) : (l.filter p).length ≤ 1 := by
  have hnf : (l.filter p).Nodup := hn.filter p
  have hall : ∀ a ∈ l.filter p, p a = true := fun a ha => (List.mem_filter.mp ha).2
  rcases hfl : l.filter p with _ | ⟨a, _ | ⟨b, rest⟩⟩
  · simp
  · simp
  · exfalso
    rw [hfl] at hnf hall
    have hab : a = b := hu a b (hall a (by simp)) (hall b (by simp))
    rw [hab] at hnf
    simp at hnf

/-- The workers do move: a worker scheduled alone runs a whole batch and frees the mutex;
a worker scheduled while another is inside a batch waits at its `Lock`. -/
theorem Pool.run_examples :
    (Pool.run (List.replicate 10 (0, .transportErr))).pcs 0 = ⟨5, .atLock⟩ ∧
    (Pool.run (List.replicate 10 (0, .transportErr))).workerMu = false ∧
    (Pool.run [(0, .limiterErr), (2, .limiterErr), (0, .limiterErr)]).pcs 0 = ⟨1, .atLock⟩ ∧
    (Pool.run [(0, .limiterErr), (2, .limiterErr), (0, .limiterErr)]).pcs 2 = ⟨0, .atLock⟩ ∧
    (Pool.run [(0, .limiterErr), (2, .limiterErr), (0, .limiterErr)]).workerMu = true := by
  decide

/-! ## Theorems: the batch lock across workers -/

/-- C8. In every interleaved execution of the four workers sharing `workerMu`, in every
state reached, at most one worker is inside a batch (between the lock taken before the
first request of a batch and the unlock after its last), so at most one has a request of
its batch under way; and no worker is inside a batch while the mutex is free. -/
theorem batch_lock_mutual_exclusion (sched : List (Fin 4 × IterOutcome)) :
    ((List.finRange 4).filter (fun w => ((Pool.run sched).pcs w).midBatch)).length ≤ 1 ∧
    ((List.finRange 4).filter (fun w => ((Pool.run sched).pcs w).inFlight)).length ≤ 1 ∧
    ((Pool.run sched).workerMu = true ∨
      ((List.finRange 4).filter (fun w => ((Pool.run sched).pcs w).midBatch)).length = 0) := by
  have hinv : Pool.Inv (Pool.run sched) := Pool.run_keeps_inv sched _ Pool.init_ok
  generalize Pool.run sched = s at hinv
  have hmid : ∀ w : Fin 4, (s.pcs w).inFlight = true → (s.pcs w).midBatch = true := by
    intro w hw
    simp only [WorkerPC.inFlight] at hw
    simp [WorkerPC.midBatch, hw]
  refine ⟨?_, ?_, ?_⟩
  · exact filter_length_le_one _ (List.nodup_finRange 4) _ hinv.unique
  · exact filter_length_le_one _ (List.nodup_finRange 4) _
      (fun a b ha hb => hinv.unique a b (hmid a ha) (hmid b hb))
  · cases hmu : s.workerMu with
    | true => exact Or.inl rfl
    | false =>
      right
      rw [List.length_eq_zero, List.filter_eq_nil_iff]
      intro w _
      simp [hinv.free hmu w]

end Project
